import Mathlib

/-!
Verification development for the quote-viz similarity / clustering /
projection / analytics core (`backend/app/services` and
`backend/app/scripts`).  Python floats are modelled as real numbers,
`numpy` vector operations as list folds, and the Neo4j-backed store as an
explicit record of quotes, people and similarity edges.
-/

namespace QuoteViz

/-! ## Definitions: the shallow embedding of the similarity, clustering,
projection and analytics core. -/

/-- `np.dot` on two 1-D vectors of the same length (the deployment fixes the
embedding dimension, so mismatched lengths do not occur in the modelled calls). -/
def dotList (u v : List ℝ) : ℝ := (List.zipWith (· * ·) u v).sum

/-- `np.linalg.norm`: the Euclidean norm of a vector. -/
noncomputable def npNorm (v : List ℝ) : ℝ := Real.sqrt (dotList v v)

/-- `NLPService.compute_cosine_similarity`: dot product over the product of
norms, returning `0.0` when either norm is zero. -/
noncomputable def compute_cosine_similarity (embedding1 embedding2 : List ℝ) : ℝ :=
  let dot_product := dotList embedding1 embedding2
  let norm1 := npNorm embedding1
  let norm2 := npNorm embedding2
  if norm1 = 0 ∨ norm2 = 0 then 0
  else dot_product / (norm1 * norm2)

/-- The skip test in `find_top_similar`'s loop: `if exclude_id and quote_id ==
exclude_id: continue`.  A `None` or empty-string `exclude_id` is falsy in
Python, so nothing is skipped in that case. -/
def excludeMatches (exclude_id : Option String) (quote_id : String) : Bool :=
  match exclude_id with
  | none => false
  | some e => e ≠ "" && quote_id == e

/-- One step of the stable descending insertion modelling Python's stable
`list.sort(key=..., reverse=True)`: `a` is placed before the first element
whose key is not greater than `f a`. -/
noncomputable def insertDescBy (f : α → ℝ) (a : α) : List α → List α
  | [] => [a]
  | b :: l => if f a < f b then b :: insertDescBy f a l else a :: b :: l

/-- Stable sort by strictly descending key passes, modelling
`similarities.sort(key=lambda x: x[1], reverse=True)` (Timsort is stable:
equal keys keep their input order). -/
noncomputable def sortDescBy (f : α → ℝ) : List α → List α
  | [] => []
  | a :: l => insertDescBy f a (sortDescBy f l)

/-- The `similarities` list built by the loop in `find_top_similar`, in corpus
order: every non-skipped `(id, embedding)` becomes `(id, score)`. -/
noncomputable def similarityList (target_embedding : List ℝ)
    (all_embeddings : List (String × List ℝ)) (exclude_id : Option String) :
    List (String × ℝ) :=
  all_embeddings.filterMap (fun p =>
    if excludeMatches exclude_id p.1 then none
    else some (p.1, compute_cosine_similarity target_embedding p.2))

/-- `NLPService.find_top_similar`: score every non-excluded corpus entry,
sort by descending similarity (stably) and keep the first `top_k`. -/
noncomputable def find_top_similar (target_embedding : List ℝ)
    (all_embeddings : List (String × List ℝ)) (top_k : ℕ)
    (exclude_id : Option String) : List (String × ℝ) :=
  (sortDescBy (fun x => x.2) (similarityList target_embedding all_embeddings exclude_id)).take top_k

/-- A `Quote` node.  `embedding = none` models a missing `q.embedding`
property and `some []` an empty stored vector (both falsy in Python);
`author` is the name of the `Person` the quote is `ATTRIBUTED_TO`, `none`
when that relationship is absent. -/
structure Quote where
  id : String
  embedding : Option (List ℝ)
  cluster_id : Option ℤ
  author : Option String

/-- A directed `SIMILAR_TO` relationship with its `similarity` property. -/
structure SimilarityEdge where
  source : String
  target : String
  similarity : ℝ

/-- The store visible to the similarity service: `Quote` nodes, `Person`
nodes (by unique name) and the `SIMILAR_TO` edge set. -/
structure DBState where
  quotes : List Quote
  people : List String
  edges : List SimilarityEdge

/-- Python truthiness of a stored embedding property. -/
def truthyEmbedding : Option (List ℝ) → Bool
  | none => false
  | some e => !e.isEmpty

/-- The `(id, embedding)` pair contributed by one quote to
`get_all_embeddings`, or `none` when its embedding is falsy. -/
def embeddingEntry (q : Quote) : Option (String × List ℝ) :=
  match q.embedding with
  | some e => if e.isEmpty then none else some (q.id, e)
  | none => none

/-- `Neo4jService.get_all_embeddings`: every quote whose `embedding` property
is truthy, as an `(id, embedding)` pair, in store order. -/
def get_all_embeddings (st : DBState) : List (String × List ℝ) :=
  st.quotes.filterMap embeddingEntry

/-- `MATCH (q:Quote {id: $id}) ...` existence test. -/
def quoteExists (st : DBState) (i : String) : Bool :=
  st.quotes.any (fun q => q.id == i)

/-- `Neo4jService.get_quote`: the first quote with the given id that has an
`ATTRIBUTED_TO` relationship (the Cypher pattern requires the author). -/
def get_quote (st : DBState) (i : String) : Option Quote :=
  st.quotes.find? (fun q => q.id == i && q.author.isSome)

/-- The edges created for one source's `(target, similarity)` list: the
`CREATE` runs only when the `MATCH` on both endpoint ids succeeds. -/
def edgesFor (st : DBState) (g : String × List (String × ℝ)) :
    List SimilarityEdge :=
  g.2.filterMap (fun ts =>
    if quoteExists st g.1 && quoteExists st ts.1 then
      some ⟨g.1, ts.1, ts.2⟩
    else none)

/-- `Neo4jService.create_similarity_edges_top_k`: delete every `SIMILAR_TO`
edge, then create one edge per `(target, similarity)` entry of each source's
list, provided both endpoints exist as quote nodes. -/
def create_similarity_edges_top_k (st : DBState)
    (top_k_map : List (String × List (String × ℝ))) : DBState :=
  { st with edges := top_k_map.flatMap (edgesFor st) }

/-- The `top_k_map` dict built by the loop in
`recompute_similarity_edges_top_k`: one entry per quote with a truthy
embedding, in store order, mapping its id to its top-k list (itself
excluded). -/
noncomputable def topKMap (st : DBState) (k : ℕ) :
    List (String × List (String × ℝ)) :=
  (get_all_embeddings st).map (fun qe =>
    (qe.1, find_top_similar qe.2 (get_all_embeddings st) k (some qe.1)))

set_option linter.unusedVariables false in
/-- `SimilarityService.recompute_similarity_edges_top_k`.  The
`similarity_threshold` argument models the field stored by
`SimilarityService.__init__`; the method never reads it.  Returns the updated
store together with the `(total_quotes, similarity_edges_created, top_k)`
result dict. -/
noncomputable def recompute_similarity_edges_top_k (similarity_threshold : ℝ)
    (st : DBState) (top_k : ℕ) : DBState × ℕ × ℕ × ℕ :=
  (create_similarity_edges_top_k st (topKMap st top_k),
    (get_all_embeddings st).length,
    ((topKMap st top_k).map (fun g => g.2.length)).sum, top_k)

/-- The spec's `NotFoundError` (`find_similar_quotes` is documented to raise
it; the implementation never does). -/
inductive NotFoundError where
  | notFound

/-- `SimilarityService.find_similar_quotes`: look the quote up, read its
embedding, rank the corpus, and hydrate each result id that still resolves;
each `return []` of the source is an `.ok []` here, and no path errors. -/
noncomputable def find_similar_quotes (st : DBState) (quote_id : String)
    (top_k : ℕ) : Except NotFoundError (List (String × ℝ)) :=
  match get_quote st quote_id with
  | none => .ok []
  | some _ =>
    match st.quotes.find? (fun q => q.id == quote_id) with
    | none => .ok []
    | some q =>
      match q.embedding with
      | none => .ok []
      | some e =>
        if e.isEmpty then .ok []
        else
          let all_embeddings := get_all_embeddings st
          let similar := find_top_similar e all_embeddings top_k (some quote_id)
          .ok (similar.filter (fun s => (get_quote st s.1).isSome))

/-- The empty datastore. -/
def stEmpty : DBState := ⟨[], [], []⟩

/-- A store with one quote that has an author but no stored embedding. -/
def stNoVec : DBState := ⟨[⟨"a", none, none, some "p"⟩], ["p"], []⟩

/-- A store with one embedded quote, used to witness the recompute claims. -/
def stOne : DBState := ⟨[⟨"a", some [1], none, some "p"⟩], ["p"], []⟩

/-- Two embedded quotes with opposite one-dimensional vectors: each one's
only neighbour has cosine similarity `-1`. -/
def stNeg : DBState :=
  ⟨[⟨"a", some [1], none, some "p"⟩, ⟨"b", some [-1], none, some "p"⟩],
    ["p"], []⟩

/-- `np.min` of a 1-D array (call sites guarantee nonemptiness). -/
def npMin : List ℝ → ℝ
  | [] => 0
  | a :: l => l.foldl min a

/-- `np.max` of a 1-D array (call sites guarantee nonemptiness). -/
def npMax : List ℝ → ℝ
  | [] => 0
  | a :: l => l.foldl max a

/-- `UMAPService.compute_2d_projection`, with the external
`umap.UMAP(n_components=2, ...).fit_transform` abstracted as `reducer`, one
2-D coordinate pair per input row.  Fewer than 2 records short-circuits to
the empty mapping; otherwise both axes are min-max normalized, a range of
`1.0` replacing a zero range. -/
noncomputable def compute_2d_projection
    (reducer : List (List ℝ) → List (ℝ × ℝ))
    (embeddings : List (String × List ℝ)) : List (String × (ℝ × ℝ)) :=
  if embeddings.length < 2 then []
  else
    let coords := reducer (embeddings.map Prod.snd)
    let x_min := npMin (coords.map Prod.fst)
    let x_max := npMax (coords.map Prod.fst)
    let y_min := npMin (coords.map Prod.snd)
    let y_max := npMax (coords.map Prod.snd)
    let x_range := if x_max ≠ x_min then x_max - x_min else 1
    let y_range := if y_max ≠ y_min then y_max - y_min else 1
    (embeddings.map Prod.fst).zip (coords.map (fun c =>
      ((c.1 - x_min) / x_range, (c.2 - y_min) / y_range)))

/-- The cluster-count adjustment of `compute_clusters`: corpora smaller than
the requested count fall back to `max(2, corpus_size // 10)`. -/
def adjusted_n_clusters (n_clusters corpus_size : ℕ) : ℕ :=
  if corpus_size < n_clusters then max 2 (corpus_size / 10) else n_clusters

/-- `sklearn.preprocessing.normalize`: L2-normalize every row, zero rows
unchanged. -/
noncomputable def sklearn_normalize (X : List (List ℝ)) : List (List ℝ) :=
  X.map (fun v => if npNorm v = 0 then v else v.map (fun x => x / npNorm v))

/-- `compute_clusters`, with `sklearn.cluster.KMeans(...).fit_predict`
abstracted as `kmeans` (`none` models the `ValueError` sklearn raises when
there are fewer samples than clusters).  Returns the effective cluster
count, whether the adjustment was reported (the script prints it exactly
when the corpus is smaller than the request), and the id-to-label updates
written back to the store. -/
noncomputable def compute_clusters
    (kmeans : ℕ → List (List ℝ) → Option (List ℕ)) (n_clusters : ℕ)
    (embeddings_data : List (String × List ℝ)) :
    Option (ℕ × Bool × List (String × ℕ)) :=
  match kmeans (adjusted_n_clusters n_clusters embeddings_data.length)
      (sklearn_normalize (embeddings_data.map Prod.snd)) with
  | none => none
  | some cluster_labels =>
      some (adjusted_n_clusters n_clusters embeddings_data.length,
        decide (embeddings_data.length < n_clusters),
        (embeddings_data.map Prod.fst).zip cluster_labels)

/-- Modelled from the spec: the contract of the external
`sklearn.cluster.KMeans.fit_predict` — with at least one cluster and at
least as many samples as clusters it yields one label per sample, each in
`[0, n_clusters)`; with fewer samples than clusters it raises. -/
def KMeansContract (kmeans : ℕ → List (List ℝ) → Option (List ℕ)) : Prop :=
  ∀ n X, (X.length < n → kmeans n X = none) ∧
    (1 ≤ n → n ≤ X.length → ∃ labels, kmeans n X = some labels ∧
      labels.length = X.length ∧ ∀ l ∈ labels, l < n)

/-- Modelled from the spec: a degenerate instance of the k-means contract
(every sample labelled `0`), used to exhibit concrete runs. -/
def kmeansModel (n : ℕ) (X : List (List ℝ)) : Option (List ℕ) :=
  if 1 ≤ n ∧ n ≤ X.length then some (X.map (fun _ => 0)) else none

/-- Ascending insertion used to model the query's `ORDER BY cluster_id`. -/
def insertAscZ (a : ℤ) : List ℤ → List ℤ
  | [] => [a]
  | b :: l => if b < a then b :: insertAscZ a l else a :: b :: l

/-- Ascending sort modelling `ORDER BY cluster_id`. -/
def sortAscZ : List ℤ → List ℤ
  | [] => []
  | a :: l => insertAscZ a (sortAscZ l)

/-- The cluster ids of the quotes whose `cluster_id` property is non-null,
in store order, with multiplicity. -/
def assignedClusterIds (st : DBState) : List ℤ :=
  st.quotes.filterMap Quote.cluster_id

/-- The cluster id of the quote with a given id, when assigned. -/
def clusterOf (st : DBState) (i : String) : Option ℤ :=
  (st.quotes.find? (fun q => q.id == i)).bind Quote.cluster_id

/-- `COALESCE(avg(s.similarity), 0.0)` over the `SIMILAR_TO` edges whose two
endpoints lie in cluster `c`. -/
noncomputable def avgSimilarityInCluster (st : DBState) (c : ℤ) : ℝ :=
  let sims := st.edges.filterMap (fun e =>
    if clusterOf st e.source == some c && clusterOf st e.target == some c
    then some e.similarity else none)
  if sims.length = 0 then 0 else sims.sum / sims.length

/-- The record returned by `get_analytics_stats` (`top_people` is omitted:
its `ORDER BY count DESC LIMIT 10` order is unspecified under ties and no
claim refers to it). -/
structure AnalyticsStats where
  total_quotes : ℕ
  total_people : ℕ
  avg_quotes_per_person : ℝ
  total_clusters : ℕ
  cluster_distribution : List (ℤ × ℕ × ℝ)
  avg_cluster_size : ℝ

/-- `Neo4jService.get_analytics_stats`.  Note the first Cypher query starts
with `MATCH (q:Quote)`, so on a store with no quotes the aggregation row
reports zero persons as well. -/
noncomputable def get_analytics_stats (st : DBState) : AnalyticsStats :=
  let total_quotes := st.quotes.length
  let total_people := if st.quotes.isEmpty then 0 else st.people.length
  let cluster_distribution := (sortAscZ (assignedClusterIds st).dedup).map
    (fun c => (c, (assignedClusterIds st).count c, avgSimilarityInCluster st c))
  let total_clusters := cluster_distribution.length
  { total_quotes := total_quotes
    total_people := total_people
    avg_quotes_per_person :=
      if 0 < total_people then (total_quotes : ℝ) / total_people else 0
    total_clusters := total_clusters
    cluster_distribution := cluster_distribution
    avg_cluster_size :=
      if 0 < total_clusters then
        ((((cluster_distribution.map (fun c => c.2.1)).sum : ℕ) : ℝ)) /
          total_clusters
      else 0 }

/-- A degenerate reducer placing every record at the origin, used to witness
the projection claim. -/
def zeroReducer : List (List ℝ) → List (ℝ × ℝ) :=
  fun M => M.map (fun _ => (0, 0))

/-! ## Theorems. -/

theorem insertDescBy_perm (f : α → ℝ) (a : α) (l : List α) :
    (insertDescBy f a l).Perm (a :: l) := by
  induction l with
  | nil => exact List.Perm.refl _
  | cons b l ih =>
    simp only [insertDescBy]
    split
    · exact (ih.cons b).trans (List.Perm.swap a b l)
    · exact List.Perm.refl _

theorem sortDescBy_perm (f : α → ℝ) (l : List α) :
    (sortDescBy f l).Perm l := by
  induction l with
  | nil => exact List.Perm.refl _
  | cons a l ih =>
    exact (insertDescBy_perm f a (sortDescBy f l)).trans (ih.cons a)

theorem mem_insertDescBy {f : α → ℝ} {a x : α} {l : List α} :
    x ∈ insertDescBy f a l ↔ x = a ∨ x ∈ l := by
  rw [(insertDescBy_perm f a l).mem_iff, List.mem_cons]

theorem pairwise_insertDescBy {f : α → ℝ} {a : α} {l : List α}
    (h : l.Pairwise (fun x y => f y ≤ f x)) :
    (insertDescBy f a l).Pairwise (fun x y => f y ≤ f x) := by
  induction l with
  | nil => simp [insertDescBy]
  | cons b l ih =>
    rw [List.pairwise_cons] at h
    obtain ⟨hb, hl⟩ := h
    simp only [insertDescBy]
    split
    next hab =>
      rw [List.pairwise_cons]
      refine ⟨fun x hx => ?_, ih hl⟩
      rcases mem_insertDescBy.1 hx with rfl | hx
      · exact le_of_lt hab
      · exact hb x hx
    next hab =>
      rw [List.pairwise_cons]
      refine ⟨fun x hx => ?_, List.pairwise_cons.2 ⟨hb, hl⟩⟩
      rcases List.mem_cons.1 hx with rfl | hx
      · exact le_of_not_lt hab
      · exact le_trans (hb x hx) (le_of_not_lt hab)

theorem sortDescBy_pairwise (f : α → ℝ) (l : List α) :
    (sortDescBy f l).Pairwise (fun x y => f y ≤ f x) := by
  induction l with
  | nil => simp [sortDescBy]
  | cons a l ih => exact pairwise_insertDescBy ih

/-- Stability of a single insertion, seen through the elements with a fixed
key `s`: the inserted element lands in front of that group (every element it
jumped over has a strictly greater key). -/
theorem filter_insertDescBy (f : α → ℝ) (s : ℝ) (a : α) (l : List α) :
    (insertDescBy f a l).filter (fun x => decide (f x = s)) =
      if f a = s then a :: l.filter (fun x => decide (f x = s))
      else l.filter (fun x => decide (f x = s)) := by
  induction l with
  | nil =>
    by_cases has : f a = s <;> simp [insertDescBy, has]
  | cons b l ih =>
    simp only [insertDescBy]
    split
    next hab =>
      by_cases has : f a = s
      · have hbs : ¬ (f b = s) := fun hbs => absurd (hbs.trans has.symm) (ne_of_gt hab)
        simp [List.filter_cons, has, hbs, ih]
      · simp [List.filter_cons, has, ih]
    next hab =>
      by_cases has : f a = s <;> simp [List.filter_cons, has]

/-- Stability of the full sort: for every key value `s`, the elements with
key `s` appear in the sorted list exactly in their input order. -/
theorem filter_sortDescBy (f : α → ℝ) (s : ℝ) (l : List α) :
    (sortDescBy f l).filter (fun x => decide (f x = s)) =
      l.filter (fun x => decide (f x = s)) := by
  induction l with
  | nil => rfl
  | cons a l ih =>
    simp only [sortDescBy]
    rw [filter_insertDescBy, ih]
    by_cases has : f a = s <;> simp [List.filter_cons, has]

theorem filterMap_guard (p : α → Bool) (h : α → β) (l : List α) :
    l.filterMap (fun x => if p x then none else some (h x)) =
      (l.filter (fun x => !p x)).map h := by
  induction l with
  | nil => rfl
  | cons a l ih => by_cases hpa : p a <;> simp [hpa, ih]

theorem similarityList_eq (t : List ℝ) (all : List (String × List ℝ))
    (ex : Option String) :
    similarityList t all ex =
      (all.filter (fun p => !excludeMatches ex p.1)).map
        (fun p => (p.1, compute_cosine_similarity t p.2)) := by
  simp only [similarityList]
  exact filterMap_guard _ _ all

theorem similarityList_ids (t : List ℝ) (all : List (String × List ℝ))
    (ex : Option String) :
    (similarityList t all ex).map Prod.fst =
      (all.filter (fun p => !excludeMatches ex p.1)).map Prod.fst := by
  rw [similarityList_eq]
  simp [List.map_map, Function.comp]

theorem similarityList_ids_sublist (t : List ℝ) (all : List (String × List ℝ))
    (ex : Option String) :
    ((similarityList t all ex).map Prod.fst).Sublist (all.map Prod.fst) := by
  rw [similarityList_ids]
  exact (List.filter_sublist all).map Prod.fst

theorem find_top_similar_length (t : List ℝ) (all : List (String × List ℝ))
    (k : ℕ) (ex : Option String) :
    (find_top_similar t all k ex).length ≤ k := by
  simp only [find_top_similar]
  exact List.length_take_le k _

theorem find_top_similar_sorted (t : List ℝ) (all : List (String × List ℝ))
    (k : ℕ) (ex : Option String) :
    (find_top_similar t all k ex).Pairwise (fun x y => y.2 ≤ x.2) := by
  simp only [find_top_similar]
  exact (sortDescBy_pairwise _ _).sublist (List.take_sublist k _)

theorem find_top_similar_ids_subset {t : List ℝ} {all : List (String × List ℝ)}
    {k : ℕ} {ex : Option String} {x : String} :
    x ∈ (find_top_similar t all k ex).map Prod.fst → x ∈ all.map Prod.fst := by
  intro hx
  have h1 : x ∈ (sortDescBy (fun x => x.2) (similarityList t all ex)).map Prod.fst := by
    refine List.Sublist.mem hx ?_
    exact (List.take_sublist k _).map Prod.fst
  have h2 : x ∈ (similarityList t all ex).map Prod.fst :=
    (((sortDescBy_perm _ _).map Prod.fst).mem_iff).1 h1
  exact List.Sublist.mem h2 (similarityList_ids_sublist t all ex)

theorem find_top_similar_mem_sim {t : List ℝ} {all : List (String × List ℝ)}
    {k : ℕ} {ex : Option String} {e : String × ℝ}
    (he : e ∈ find_top_similar t all k ex) : e ∈ similarityList t all ex := by
  have h1 : e ∈ sortDescBy (fun x => x.2) (similarityList t all ex) :=
    List.Sublist.mem he (List.take_sublist k _)
  exact ((sortDescBy_perm _ _).mem_iff).1 h1

theorem find_top_similar_nodup {t : List ℝ} {all : List (String × List ℝ)}
    {k : ℕ} {ex : Option String}
    (hall : (all.map Prod.fst).Nodup) :
    ((find_top_similar t all k ex).map Prod.fst).Nodup := by
  have h1 : ((similarityList t all ex).map Prod.fst).Nodup :=
    hall.sublist (similarityList_ids_sublist t all ex)
  have h2 : ((sortDescBy (fun x => x.2) (similarityList t all ex)).map Prod.fst).Nodup :=
    (((sortDescBy_perm _ _).map Prod.fst).symm.nodup_iff).1 h1
  simp only [find_top_similar, List.map_take]
  exact h2.sublist (List.take_sublist k _)

theorem find_top_similar_not_excluded {t : List ℝ} {all : List (String × List ℝ)}
    {k : ℕ} {e : String} (hne : e ≠ "") :
    e ∉ (find_top_similar t all k (some e)).map Prod.fst := by
  intro hmem
  obtain ⟨p, hp, hpe⟩ := List.mem_map.1 hmem
  have hsim := find_top_similar_mem_sim hp
  rw [similarityList_eq] at hsim
  obtain ⟨q, hq, hqe⟩ := List.mem_map.1 hsim
  have hkeep := List.of_mem_filter hq
  have : q.1 = e := by
    have : (p.1 : String) = e := hpe ▸ rfl
    rw [← this, ← hqe]
  rw [excludeMatches] at hkeep
  simp [this, hne] at hkeep

theorem pairwise_and {R S : α → α → Prop} {l : List α}
    (hR : l.Pairwise R) (hS : l.Pairwise S) :
    l.Pairwise (fun a b => R a b ∧ S a b) := by
  induction l with
  | nil => exact List.Pairwise.nil
  | cons a l ih =>
    rw [List.pairwise_cons] at hR hS ⊢
    exact ⟨fun b hb => ⟨hR.1 b hb, hS.1 b hb⟩, ih hR.2 hS.2⟩

/-- Selection into the top-k output is purely by rank: when all scores are
distinct, an entry of the similarity list with fewer than `k` strictly higher
scoring entries is always returned, whatever its score's value. -/
theorem find_top_similar_rank {t : List ℝ} {all : List (String × List ℝ)}
    {k : ℕ} {ex : Option String} {e : String × ℝ}
    (hscores : ((similarityList t all ex).map Prod.snd).Nodup)
    (he : e ∈ similarityList t all ex)
    (hcount : (similarityList t all ex).countP (fun x => decide (e.2 < x.2)) < k) :
    e ∈ find_top_similar t all k ex := by
  have hperm : (sortDescBy (fun x => x.2) (similarityList t all ex)).Perm
      (similarityList t all ex) := sortDescBy_perm _ _
  set L := similarityList t all ex with hL
  set S := sortDescBy (fun x => x.2) L with hS
  have hS_nodup : (S.map Prod.snd).Nodup := ((hperm.map Prod.snd).symm.nodup_iff).1 hscores
  have hpair_ne : S.Pairwise (fun x y => x.2 ≠ y.2) := by
    have : (S.map Prod.snd).Pairwise (· ≠ ·) := hS_nodup
    exact List.pairwise_map.1 this
  have hpair_gt : S.Pairwise (fun x y => y.2 < x.2) :=
    (pairwise_and (sortDescBy_pairwise _ _) hpair_ne).imp
      (fun h => lt_of_le_of_ne h.1 (Ne.symm h.2))
  have heS : e ∈ S := hperm.mem_iff.2 he
  simp only [find_top_similar, ← hL, ← hS]
  by_contra hnot
  have hsplit := List.take_append_drop k S
  have heD : e ∈ S.drop k := by
    rcases List.mem_append.1 (hsplit ▸ heS) with h | h
    · exact absurd h hnot
    · exact h
  have hlen : k < S.length := by
    by_contra hle
    rw [List.drop_eq_nil_of_le (le_of_not_lt hle)] at heD
    exact absurd heD (List.not_mem_nil e)
  have htake_all : ∀ x ∈ S.take k, (fun x : String × ℝ => decide (e.2 < x.2)) x = true := by
    intro x hx
    have hpa := hpair_gt
    rw [← hsplit, List.pairwise_append] at hpa
    simpa using hpa.2.2 x hx e heD
  have hcount_take : (S.take k).countP (fun x => decide (e.2 < x.2)) = k := by
    rw [List.countP_eq_length.2 htake_all, List.length_take]
    exact min_eq_left (le_of_lt hlen)
  have hbig : k ≤ L.countP (fun x => decide (e.2 < x.2)) := by
    rw [← hperm.countP_eq, ← hsplit, List.countP_append, hcount_take]
    exact Nat.le_add_right k _
  exact absurd hcount (not_lt.2 hbig)

theorem dotList_single (a b : ℝ) : dotList [a] [b] = a * b := by
  simp [dotList]

theorem npNorm_single (a : ℝ) : npNorm [a] = |a| := by
  rw [npNorm, dotList_single, Real.sqrt_mul_self_eq_abs]

theorem cosine_single {a b : ℝ} (ha : a ≠ 0) (hb : b ≠ 0) :
    compute_cosine_similarity [a] [b] = (a * b) / (|a| * |b|) := by
  simp only [compute_cosine_similarity, dotList_single, npNorm_single]
  rw [if_neg]
  push_neg
  exact ⟨abs_ne_zero.2 ha, abs_ne_zero.2 hb⟩

theorem cosine_one_one : compute_cosine_similarity [1] [1] = 1 := by
  rw [cosine_single one_ne_zero one_ne_zero]; norm_num

theorem cosine_one_negone : compute_cosine_similarity [1] [-1] = -1 := by
  rw [cosine_single one_ne_zero (by norm_num : (-1 : ℝ) ≠ 0)]
  rw [abs_one, abs_neg, abs_one]
  norm_num

theorem cosine_one_zero : compute_cosine_similarity [1] [0] = 0 := by
  simp only [compute_cosine_similarity, npNorm_single]
  rw [if_pos]
  right
  simp

theorem eval_tie : find_top_similar [1] [("a", [1]), ("a", [1])] 2 none
    = [("a", 1), ("a", 1)] := by
  simp only [find_top_similar, similarityList, List.filterMap, excludeMatches,
    cosine_one_one, sortDescBy, insertDescBy]
  norm_num

theorem eval_empty_id : find_top_similar [1] [("", [1])] 1 (some "")
    = [("", 1)] := by
  simp only [find_top_similar, similarityList, List.filterMap, excludeMatches,
    cosine_one_one, sortDescBy, insertDescBy]
  norm_num [List.take]

/-- C1 (counterexample): as stated the claim fails.  With the duplicated
corpus `[("a",[1]), ("a",[1])]` (two entries with the same id and vector) the
output of `find_top_similar` is `[("a",1), ("a",1)]`: its scores are not
strictly descending and its ids are not duplicate-free.  With corpus
`[("",[1])]` and excluded id `""` the output still contains the excluded id,
because Python treats the empty string as falsy in `if exclude_id and ...`. -/
theorem C1_counterexample :
    ¬ (find_top_similar [1] [("a", [1]), ("a", [1])] 2 none).Pairwise
        (fun x y => y.2 < x.2) ∧
    ¬ ((find_top_similar [1] [("a", [1]), ("a", [1])] 2 none).map Prod.fst).Nodup ∧
    "" ∈ (find_top_similar [1] [("", [1])] 1 (some "")).map Prod.fst := by
  refine ⟨?_, ?_, ?_⟩
  · rw [eval_tie]
    intro h
    have := (List.pairwise_cons.1 h).1 ("a", 1) (by simp)
    exact absurd this (lt_irrefl _)
  · rw [eval_tie]
    decide
  · rw [eval_empty_id]
    simp

/-- C1 (amended): for every corpus whose ids are pairwise distinct, every
target, every `k` and every excluded id that is not the empty string, the
output of `find_top_similar` has length ≤ k, its scores are descending (ties,
which are possible, keep the order non-strict), its ids are duplicate-free,
and it never contains the excluded id. -/
theorem C1_top_k_shape (t : List ℝ) (all : List (String × List ℝ)) (k : ℕ)
    (ex : Option String)
    (hids : (all.map Prod.fst).Nodup)
    (hex : ∀ e, ex = some e → e ≠ "") :
    (find_top_similar t all k ex).length ≤ k ∧
    (find_top_similar t all k ex).Pairwise (fun x y => y.2 ≤ x.2) ∧
    ((find_top_similar t all k ex).map Prod.fst).Nodup ∧
    ∀ e, ex = some e → e ∉ (find_top_similar t all k ex).map Prod.fst := by
  refine ⟨find_top_similar_length t all k ex, find_top_similar_sorted t all k ex,
    find_top_similar_nodup hids, ?_⟩
  intro e hexe
  subst hexe
  exact find_top_similar_not_excluded (hex e rfl)

/-- C1 (witness): the amended theorem applied to the concrete corpus
`[("a",[1]), ("b",[0])]` with `k = 1` and excluded id `"x"`. -/
theorem C1_top_k_shape_witness :
    (([("a", [1]), ("b", [0])] : List (String × List ℝ)).map Prod.fst).Nodup ∧
    (∀ e, (some "x" : Option String) = some e → e ≠ "") ∧
    ((find_top_similar [1] [("a", [1]), ("b", [0])] 1 (some "x")).length ≤ 1 ∧
     (find_top_similar [1] [("a", [1]), ("b", [0])] 1 (some "x")).Pairwise
        (fun x y => y.2 ≤ x.2) ∧
     ((find_top_similar [1] [("a", [1]), ("b", [0])] 1 (some "x")).map Prod.fst).Nodup ∧
     ∀ e, (some "x" : Option String) = some e →
        e ∉ (find_top_similar [1] [("a", [1]), ("b", [0])] 1 (some "x")).map Prod.fst) := by
  have hids : (([("a", [1]), ("b", [0])] : List (String × List ℝ)).map Prod.fst).Nodup := by
    decide
  have hex : ∀ e, (some "x" : Option String) = some e → e ≠ "" := by
    intro e he
    obtain rfl : "x" = e := Option.some.inj he
    decide
  exact ⟨hids, hex, C1_top_k_shape [1] [("a", [1]), ("b", [0])] 1 (some "x") hids hex⟩

/-- C7: `compute_cosine_similarity` returns `dot(u,v) / (‖u‖·‖v‖)`; whenever
either norm is zero it returns exactly `0.0`, and in the remaining case the
divisor is provably nonzero, so the guarded division never fails. -/
theorem C7_cosine_guard (u v : List ℝ) :
    (npNorm u = 0 ∨ npNorm v = 0 → compute_cosine_similarity u v = 0) ∧
    (npNorm u ≠ 0 → npNorm v ≠ 0 →
      compute_cosine_similarity u v = dotList u v / (npNorm u * npNorm v) ∧
      npNorm u * npNorm v ≠ 0) := by
  constructor
  · intro h
    simp only [compute_cosine_similarity]
    rw [if_pos h]
  · intro hu hv
    constructor
    · simp only [compute_cosine_similarity]
      rw [if_neg (by push_neg; exact ⟨hu, hv⟩)]
    · exact mul_ne_zero hu hv

/-- C7 (witness): both branches of the guard at concrete one-dimensional
vectors: the zero-norm vector `[0]` gives similarity `0`, and `[1]` against
`[1]` takes the division branch with a nonzero divisor. -/
theorem C7_cosine_guard_witness :
    npNorm [(0 : ℝ)] = 0 ∧
    compute_cosine_similarity [1] [0] = 0 ∧
    npNorm [(1 : ℝ)] ≠ 0 ∧
    (compute_cosine_similarity [1] [1] =
        dotList [1] [1] / (npNorm [1] * npNorm [1]) ∧
      npNorm [(1 : ℝ)] * npNorm [1] ≠ 0) := by
  have h0 : npNorm [(0 : ℝ)] = 0 := by rw [npNorm_single]; simp
  have h1 : npNorm [(1 : ℝ)] ≠ 0 := by rw [npNorm_single]; simp
  exact ⟨h0, (C7_cosine_guard [1] [0]).1 (Or.inr h0), h1,
    (C7_cosine_guard [1] [1]).2 h1 h1⟩

/-- C8: tie-breaking is stable by input order.  The similarity list is the
corpus in input order (excluded entries dropped, each entry scored), and for
every score value `s` the entries of the output with score `s` form a sublist
of — i.e. appear in the same relative order as — the equally-scored entries
of the input. -/
theorem C8_stable_ties (t : List ℝ) (all : List (String × List ℝ)) (k : ℕ)
    (ex : Option String) :
    similarityList t all ex =
      (all.filter (fun p => !excludeMatches ex p.1)).map
        (fun p => (p.1, compute_cosine_similarity t p.2)) ∧
    ∀ s : ℝ,
      ((find_top_similar t all k ex).filter (fun x => decide (x.2 = s))).Sublist
        ((similarityList t all ex).filter (fun x => decide (x.2 = s))) := by
  refine ⟨similarityList_eq t all ex, fun s => ?_⟩
  have h1 : ((find_top_similar t all k ex).filter (fun x => decide (x.2 = s))).Sublist
      ((sortDescBy (fun x => x.2) (similarityList t all ex)).filter
        (fun x => decide (x.2 = s))) :=
    (List.take_sublist k _).filter _
  have h2 := filter_sortDescBy (fun x : String × ℝ => x.2) s (similarityList t all ex)
  rw [h2] at h1
  exact h1

theorem embeddingEntry_spec {q : Quote} {p : String × List ℝ}
    (h : embeddingEntry q = some p) :
    q.id = p.1 ∧ q.embedding = some p.2 ∧ truthyEmbedding q.embedding = true := by
  cases hqe : q.embedding with
  | none => simp [embeddingEntry, hqe] at h
  | some e =>
    simp only [embeddingEntry, hqe] at h
    by_cases he : e.isEmpty
    · rw [if_pos he] at h; cases h
    · rw [if_neg he] at h
      obtain rfl := Option.some.inj h
      exact ⟨rfl, hqe ▸ rfl, by simp [truthyEmbedding, he]⟩

theorem get_all_embeddings_ids_sublist (st : DBState) :
    ((get_all_embeddings st).map Prod.fst).Sublist (st.quotes.map Quote.id) := by
  rw [get_all_embeddings]
  induction st.quotes with
  | nil => simp
  | cons q qs ih =>
    rw [List.filterMap_cons]
    cases h : embeddingEntry q with
    | none =>
      rw [List.map_cons]
      exact ih.trans (List.sublist_cons_self _ _)
    | some p =>
      rw [List.map_cons, List.map_cons, (embeddingEntry_spec h).1]
      exact ih.cons₂ _

theorem mem_get_all_embeddings {st : DBState} {p : String × List ℝ}
    (h : p ∈ get_all_embeddings st) :
    ∃ q ∈ st.quotes, q.id = p.1 ∧ q.embedding = some p.2 ∧
      truthyEmbedding q.embedding = true := by
  obtain ⟨q, hq, hqe⟩ := List.mem_filterMap.1 h
  obtain ⟨h1, h2, h3⟩ := embeddingEntry_spec hqe
  exact ⟨q, hq, h1, h2, h3⟩

theorem mem_ids_get_all_embeddings {st : DBState} {x : String}
    (h : x ∈ (get_all_embeddings st).map Prod.fst) :
    ∃ q ∈ st.quotes, q.id = x ∧ truthyEmbedding q.embedding = true := by
  obtain ⟨p, hp, hpx⟩ := List.mem_map.1 h
  obtain ⟨q, hq, h1, _, h3⟩ := mem_get_all_embeddings hp
  exact ⟨q, hq, hpx ▸ h1, h3⟩

theorem quoteExists_of_mem_ids {st : DBState} {x : String}
    (h : x ∈ (get_all_embeddings st).map Prod.fst) :
    quoteExists st x = true := by
  obtain ⟨q, hq, h1, _⟩ := mem_ids_get_all_embeddings h
  rw [quoteExists, List.any_eq_true]
  exact ⟨q, hq, by simp [h1]⟩

theorem filterMap_guard2 (p : α → Bool) (h : α → β) (l : List α) :
    l.filterMap (fun x => if p x then some (h x) else none) =
      (l.filter p).map h := by
  induction l with
  | nil => rfl
  | cons a l ih => by_cases hpa : p a <;> simp [hpa, ih]

theorem edgesFor_source {st : DBState} {g : String × List (String × ℝ)}
    {e : SimilarityEdge} (he : e ∈ edgesFor st g) : e.source = g.1 := by
  obtain ⟨ts, _, h⟩ := List.mem_filterMap.1 he
  by_cases hq : (quoteExists st g.1 && quoteExists st ts.1) = true
  · rw [if_pos hq] at h; cases h; rfl
  · rw [if_neg hq] at h; cases h

theorem edgesFor_eq (st : DBState) (g : String × List (String × ℝ)) :
    edgesFor st g =
      (g.2.filter (fun ts => quoteExists st g.1 && quoteExists st ts.1)).map
        (fun ts => ⟨g.1, ts.1, ts.2⟩) :=
  filterMap_guard2 _ _ _

theorem filter_flatMap_by_source {γ : Type _} (gen : γ → List SimilarityEdge)
    (key : γ → String) (gs : List γ) (s : String)
    (hsrc : ∀ g ∈ gs, ∀ e ∈ gen g, e.source = key g)
    (hnd : (gs.map key).Nodup) :
    (gs.flatMap gen).filter (fun e => e.source == s) = [] ∨
      ∃ g ∈ gs, (gs.flatMap gen).filter (fun e => e.source == s) = gen g := by
  induction gs with
  | nil => exact Or.inl rfl
  | cons g gs ih =>
    rw [List.flatMap_cons, List.filter_append]
    rw [List.map_cons, List.nodup_cons] at hnd
    by_cases hks : key g = s
    · have h1 : (gen g).filter (fun e => e.source == s) = gen g := by
        apply List.filter_eq_self.2
        intro e he
        simp [hsrc g (List.mem_cons_self g gs) e he, hks]
      have h2 : (gs.flatMap gen).filter (fun e => e.source == s) = [] := by
        apply List.filter_eq_nil_iff.2
        intro e he
        obtain ⟨g', hg', heg'⟩ := List.mem_flatMap.1 he
        have hsg : e.source = key g' := hsrc g' (List.mem_cons_of_mem g hg') e heg'
        have hne : key g' ≠ s := by
          intro hcon
          apply hnd.1
          have hmem : key g' ∈ List.map key gs := List.mem_map_of_mem key hg'
          rwa [hcon, ← hks] at hmem
        simp [hsg, hne]
      rw [h1, h2, List.append_nil]
      exact Or.inr ⟨g, List.mem_cons_self g gs, rfl⟩
    · have h1 : (gen g).filter (fun e => e.source == s) = [] := by
        apply List.filter_eq_nil_iff.2
        intro e he
        simp [hsrc g (List.mem_cons_self g gs) e he, hks]
      rw [h1, List.nil_append]
      rcases ih (fun g' hg' => hsrc g' (List.mem_cons_of_mem g hg')) hnd.2 with
        h | ⟨g', hg', heq⟩
      · exact Or.inl h
      · exact Or.inr ⟨g', List.mem_cons_of_mem g hg', heq⟩

theorem topKMap_keys (st : DBState) (k : ℕ) :
    (topKMap st k).map Prod.fst = (get_all_embeddings st).map Prod.fst := by
  rw [topKMap, List.map_map]
  rfl

theorem edgesFor_props {st : DBState} {k : ℕ}
    (hall : ((get_all_embeddings st).map Prod.fst).Nodup)
    {g : String × List (String × ℝ)} (hg : g ∈ topKMap st k) :
    (edgesFor st g).length ≤ k ∧
    (edgesFor st g).Pairwise (fun a b => b.similarity ≤ a.similarity) ∧
    ((edgesFor st g).map SimilarityEdge.target).Nodup := by
  obtain ⟨qe, hqe, rfl⟩ := List.mem_map.1 hg
  rw [edgesFor_eq]
  refine ⟨?_, ?_, ?_⟩
  · rw [List.length_map]
    exact le_trans (List.length_filter_le _ _) (find_top_similar_length _ _ _ _)
  · exact List.pairwise_map.2
      ((find_top_similar_sorted _ _ _ _).sublist (List.filter_sublist _))
  · rw [List.map_map]
    have hFN := @find_top_similar_nodup qe.2 (get_all_embeddings st) k (some qe.1) hall
    exact hFN.sublist ((List.filter_sublist _).map _)

/-- C2: after `recompute_similarity_edges_top_k`, the stored edge set is
exactly the freshly computed top-k edge set — independent of whatever edges
were stored before — and it satisfies the similarity-graph invariants: both
endpoints of every edge are quotes holding a truthy vector, no edge is a
self-loop, and each source has at most `k` outgoing edges, sorted by
descending score, with pairwise-distinct targets.  (Store well-formedness:
quote ids are pairwise distinct and nonempty, as `create_quote`'s
`uuid4`-generated ids always are.) -/
theorem C2_recompute_edge_invariants (θ : ℝ) (st : DBState) (k : ℕ)
    (hids : (st.quotes.map Quote.id).Nodup)
    (hne : ∀ q ∈ st.quotes, q.id ≠ "") :
    (∀ E : List SimilarityEdge,
      (recompute_similarity_edges_top_k θ { st with edges := E } k).1.edges =
        (recompute_similarity_edges_top_k θ st k).1.edges) ∧
    ((recompute_similarity_edges_top_k θ st k).1.edges =
      (topKMap st k).flatMap (edgesFor st)) ∧
    (∀ e ∈ (recompute_similarity_edges_top_k θ st k).1.edges,
      (∃ q ∈ st.quotes, q.id = e.source ∧ truthyEmbedding q.embedding = true) ∧
      (∃ q ∈ st.quotes, q.id = e.target ∧ truthyEmbedding q.embedding = true) ∧
      e.source ≠ e.target) ∧
    (∀ s : String,
      ((recompute_similarity_edges_top_k θ st k).1.edges.filter
          (fun e => e.source == s)).length ≤ k ∧
      ((recompute_similarity_edges_top_k θ st k).1.edges.filter
          (fun e => e.source == s)).Pairwise
        (fun a b => b.similarity ≤ a.similarity) ∧
      (((recompute_similarity_edges_top_k θ st k).1.edges.filter
          (fun e => e.source == s)).map SimilarityEdge.target).Nodup) := by
  have hall : ((get_all_embeddings st).map Prod.fst).Nodup :=
    hids.sublist (get_all_embeddings_ids_sublist st)
  have hE : (recompute_similarity_edges_top_k θ st k).1.edges =
      (topKMap st k).flatMap (edgesFor st) := rfl
  refine ⟨fun E => rfl, hE, ?_, ?_⟩
  · intro e he
    rw [hE] at he
    obtain ⟨g, hg, he'⟩ := List.mem_flatMap.1 he
    rw [topKMap] at hg
    obtain ⟨qe, hqe, rfl⟩ := List.mem_map.1 hg
    rw [edgesFor_eq] at he'
    obtain ⟨ts, hts, rfl⟩ := List.mem_map.1 he'
    have htsF : ts ∈ find_top_similar qe.2 (get_all_embeddings st) k (some qe.1) :=
      List.mem_of_mem_filter hts
    have hsrc_mem : qe.1 ∈ (get_all_embeddings st).map Prod.fst :=
      List.mem_map_of_mem Prod.fst hqe
    have htgt_mem : ts.1 ∈ (get_all_embeddings st).map Prod.fst :=
      find_top_similar_ids_subset (List.mem_map_of_mem Prod.fst htsF)
    obtain ⟨qs, hqs, hqs1, hqs2⟩ := mem_ids_get_all_embeddings hsrc_mem
    obtain ⟨qt, hqt, hqt1, hqt2⟩ := mem_ids_get_all_embeddings htgt_mem
    refine ⟨⟨qs, hqs, hqs1, hqs2⟩, ⟨qt, hqt, hqt1, hqt2⟩, ?_⟩
    have hsrc_ne : qe.1 ≠ "" := hqs1 ▸ hne qs hqs
    have hnot := @find_top_similar_not_excluded qe.2 (get_all_embeddings st)
      k qe.1 hsrc_ne
    intro hcon
    have hmem : ts.1 ∈ (find_top_similar qe.2 (get_all_embeddings st) k
        (some qe.1)).map Prod.fst := List.mem_map_of_mem Prod.fst htsF
    have hcon' : qe.1 = ts.1 := hcon
    exact hnot (hcon'.symm ▸ hmem)
  · intro s
    have hkeys : ((topKMap st k).map Prod.fst).Nodup := by
      rw [topKMap_keys]; exact hall
    have hsrc : ∀ g ∈ topKMap st k, ∀ e ∈ edgesFor st g, e.source = Prod.fst g :=
      fun g _ e he => edgesFor_source he
    rw [hE]
    rcases filter_flatMap_by_source (edgesFor st) Prod.fst (topKMap st k) s
        hsrc hkeys with h | ⟨g, hg, h⟩
    · rw [h]
      exact ⟨Nat.zero_le k, List.Pairwise.nil, List.nodup_nil⟩
    · rw [h]
      exact edgesFor_props hall hg

/-- C2 (witness): the invariant theorem applied to the one-quote store
`stOne` with `k = 3`. -/
theorem C2_recompute_edge_invariants_witness :
    (stOne.quotes.map Quote.id).Nodup ∧
    (∀ q ∈ stOne.quotes, q.id ≠ "") ∧
    (∀ e ∈ (recompute_similarity_edges_top_k 0.75 stOne 3).1.edges,
      (∃ q ∈ stOne.quotes, q.id = e.source ∧ truthyEmbedding q.embedding = true) ∧
      (∃ q ∈ stOne.quotes, q.id = e.target ∧ truthyEmbedding q.embedding = true) ∧
      e.source ≠ e.target) := by
  have hids : (stOne.quotes.map Quote.id).Nodup := by
    simp [stOne]
  have hne : ∀ q ∈ stOne.quotes, q.id ≠ "" := by
    intro q hq
    simp only [stOne, List.mem_singleton] at hq
    subst hq
    decide
  exact ⟨hids, hne,
    (C2_recompute_edge_invariants 0.75 stOne 3 hids hne).2.2.1⟩

/-- C4: `recompute_similarity_edges_top_k` is idempotent — a second run over
the unchanged store returns the identical updated store (in particular the
identical `SIMILAR_TO` edge set) and the identical result counts, because the
recompute reads only the quotes, which it never modifies. -/
theorem C4_recompute_idempotent (θ : ℝ) (st : DBState) (k : ℕ) :
    recompute_similarity_edges_top_k θ
        (recompute_similarity_edges_top_k θ st k).1 k =
      recompute_similarity_edges_top_k θ st k := rfl

/-- C3 (counterexample): on the empty store the target quote does not exist,
yet `find_similar_quotes` does not raise `NotFoundError` — it returns an
empty list (`return []` in the source). -/
theorem C3_counterexample :
    get_quote stEmpty "q1" = none ∧
    find_similar_quotes stEmpty "q1" 5 = .ok [] ∧
    find_similar_quotes stEmpty "q1" 5 ≠ .error NotFoundError.notFound := by
  refine ⟨rfl, rfl, ?_⟩
  intro h
  cases h

/-- C3 (amended): `find_similar_quotes` never raises; it returns an empty
list when the target record (with its author link) is absent or when the
record's stored embedding is missing or empty, and an `.ok` result list
otherwise. -/
theorem C3_find_similar_total (st : DBState) (quote_id : String) (k : ℕ) :
    (∃ l, find_similar_quotes st quote_id k = .ok l) ∧
    (get_quote st quote_id = none →
      find_similar_quotes st quote_id k = .ok []) ∧
    (∀ q, st.quotes.find? (fun q => q.id == quote_id) = some q →
      truthyEmbedding q.embedding = false →
      find_similar_quotes st quote_id k = .ok []) := by
  refine ⟨?_, ?_, ?_⟩
  · simp only [find_similar_quotes]
    split
    · exact ⟨[], rfl⟩
    · split
      · exact ⟨[], rfl⟩
      · split
        · exact ⟨[], rfl⟩
        · split
          · exact ⟨[], rfl⟩
          · exact ⟨_, rfl⟩
  · intro h
    simp only [find_similar_quotes, h]
  · intro q hf htr
    cases hg : get_quote st quote_id with
    | none => simp only [find_similar_quotes, hg]
    | some q0 =>
      simp only [find_similar_quotes, hg, hf]
      cases hqe : q.embedding with
      | none => simp
      | some e =>
        have hemp : e.isEmpty = true := by
          simpa [truthyEmbedding, hqe] using htr
        simp [hemp]

/-- C3 (witness): the amended theorem applied to the empty store (record
absent) and to `stNoVec` (record present, embedding property missing). -/
theorem C3_find_similar_total_witness :
    get_quote stEmpty "q2" = none ∧
    find_similar_quotes stEmpty "q2" 5 = .ok [] ∧
    stNoVec.quotes.find? (fun q => q.id == "a") =
      some ⟨"a", none, none, some "p"⟩ ∧
    truthyEmbedding (⟨"a", none, none, some "p"⟩ : Quote).embedding = false ∧
    find_similar_quotes stNoVec "a" 5 = .ok [] := by
  refine ⟨rfl, (C3_find_similar_total stEmpty "q2" 5).2.1 rfl, rfl, rfl, ?_⟩
  exact (C3_find_similar_total stNoVec "a" 5).2.2 ⟨"a", none, none, some "p"⟩ rfl rfl

theorem cosine_negone_one : compute_cosine_similarity [-1] [1] = -1 := by
  rw [cosine_single (by norm_num : (-1 : ℝ) ≠ 0) one_ne_zero]
  rw [abs_one, abs_neg, abs_one]
  norm_num

theorem eval_simList_tie :
    similarityList [1] [("a", [1]), ("b", [1])] none = [("a", 1), ("b", 1)] := by
  simp only [similarityList, List.filterMap, excludeMatches, cosine_one_one]
  norm_num

theorem eval_top_tie :
    find_top_similar [1] [("a", [1]), ("b", [1])] 1 none = [("a", 1)] := by
  rw [show find_top_similar [1] [("a", [1]), ("b", [1])] 1 none =
      (sortDescBy (fun x => x.2)
        (similarityList [1] [("a", [1]), ("b", [1])] none)).take 1 from rfl,
    eval_simList_tie]
  norm_num [sortDescBy, insertDescBy, List.take]

theorem eval_simList_mixed :
    similarityList [1] [("a", [1]), ("b", [0])] none = [("a", 1), ("b", 0)] := by
  simp only [similarityList, List.filterMap, excludeMatches, cosine_one_one,
    cosine_one_zero]
  norm_num

theorem eval_simList_neg_a :
    similarityList [1] [("a", [1]), ("b", [-1])] (some "a") = [("b", -1)] := by
  have h1 : excludeMatches (some "a") "a" = true := by decide
  have h2 : excludeMatches (some "a") "b" = false := by decide
  simp only [similarityList, List.filterMap, h1, h2, cosine_one_negone]
  norm_num

theorem eval_simList_neg_b :
    similarityList [-1] [("a", [1]), ("b", [-1])] (some "b") = [("a", -1)] := by
  have h1 : excludeMatches (some "b") "a" = false := by decide
  have h2 : excludeMatches (some "b") "b" = true := by decide
  simp only [similarityList, List.filterMap, h1, h2, cosine_negone_one]
  norm_num

theorem eval_neg_a :
    find_top_similar [1] [("a", [1]), ("b", [-1])] 1 (some "a") = [("b", -1)] := by
  rw [show find_top_similar [1] [("a", [1]), ("b", [-1])] 1 (some "a") =
      (sortDescBy (fun x => x.2)
        (similarityList [1] [("a", [1]), ("b", [-1])] (some "a"))).take 1 from rfl,
    eval_simList_neg_a]
  norm_num [sortDescBy, insertDescBy, List.take]

theorem eval_neg_b :
    find_top_similar [-1] [("a", [1]), ("b", [-1])] 1 (some "b") = [("a", -1)] := by
  rw [show find_top_similar [-1] [("a", [1]), ("b", [-1])] 1 (some "b") =
      (sortDescBy (fun x => x.2)
        (similarityList [-1] [("a", [1]), ("b", [-1])] (some "b"))).take 1 from rfl,
    eval_simList_neg_b]
  norm_num [sortDescBy, insertDescBy, List.take]

/-- C10 (counterexample): with a tie, an entry with zero strictly-higher
scoring competitors can still be dropped: in the corpus
`[("a",[1]), ("b",[1])]` with `k = 1`, entry `("b",1)` has no strictly higher
scoring competitor, yet the stable sort puts `("a",1)` first and `take 1`
drops `("b",1)`. -/
theorem C10_counterexample :
    ("b", (1 : ℝ)) ∈ similarityList [1] [("a", [1]), ("b", [1])] none ∧
    (similarityList [1] [("a", [1]), ("b", [1])] none).countP
      (fun x => decide ((1 : ℝ) < x.2)) < 1 ∧
    ("b", (1 : ℝ)) ∉ find_top_similar [1] [("a", [1]), ("b", [1])] 1 none := by
  rw [eval_simList_tie, eval_top_tie]
  refine ⟨by simp, ?_, ?_⟩
  · simp only [List.countP_cons, List.countP_nil]
    norm_num
  · intro h
    rw [List.mem_singleton, Prod.ext_iff] at h
    exact absurd h.1 (by decide)

/-- C10 (amended): selection into the top-k result is purely by rank, never
by score value.  When the scores are pairwise distinct, an entry is returned
whenever fewer than `k` entries score strictly higher, however negative its
score (ties instead ration the slots by stable input order).  The configured
`similarity_threshold` is never consulted — the recompute result does not
depend on it — and `recompute_similarity_edges_top_k` persists `SIMILAR_TO`
edges with negative weight, as on the store `stNeg` of two opposite vectors,
whose every edge has weight `-1`. -/
theorem C10_rank_only_selection :
    (∀ (t : List ℝ) (all : List (String × List ℝ)) (k : ℕ) (ex : Option String)
        (e : String × ℝ),
      ((similarityList t all ex).map Prod.snd).Nodup →
      e ∈ similarityList t all ex →
      (similarityList t all ex).countP (fun x => decide (e.2 < x.2)) < k →
      e ∈ find_top_similar t all k ex) ∧
    (∀ (θ θ' : ℝ) (st : DBState) (k : ℕ),
      recompute_similarity_edges_top_k θ st k =
        recompute_similarity_edges_top_k θ' st k) ∧
    (⟨"b", "a", -1⟩ : SimilarityEdge) ∈
      (recompute_similarity_edges_top_k 0.75 stNeg 1).1.edges := by
  refine ⟨fun t all k ex e h1 h2 h3 => find_top_similar_rank h1 h2 h3,
    fun θ θ' st k => rfl, ?_⟩
  have ht : topKMap stNeg 1 = [("a", [("b", -1)]), ("b", [("a", -1)])] := by
    simp only [topKMap,
      show get_all_embeddings stNeg = [("a", [1]), ("b", [-1])] from rfl,
      List.map_cons, List.map_nil]
    rw [eval_neg_a, eval_neg_b]
  have hedges : (recompute_similarity_edges_top_k 0.75 stNeg 1).1.edges =
      [⟨"a", "b", -1⟩, ⟨"b", "a", -1⟩] := by
    show (topKMap stNeg 1).flatMap (edgesFor stNeg) = _
    rw [ht]
    rfl
  rw [hedges]
  simp

/-- C10 (witness): the rank conjunct applied to the corpus
`[("a",[1]), ("b",[0])]` with `k = 2`: entry `("b",0)` has one strictly
higher scoring competitor, so it is selected. -/
theorem C10_rank_only_selection_witness :
    ((similarityList [1] [("a", [1]), ("b", [0])] none).map Prod.snd).Nodup ∧
    ("b", (0 : ℝ)) ∈ similarityList [1] [("a", [1]), ("b", [0])] none ∧
    (similarityList [1] [("a", [1]), ("b", [0])] none).countP
      (fun x => decide ((0 : ℝ) < x.2)) < 2 ∧
    ("b", (0 : ℝ)) ∈ find_top_similar [1] [("a", [1]), ("b", [0])] 2 none := by
  have h1 : ((similarityList [1] [("a", [1]), ("b", [0])] none).map Prod.snd).Nodup := by
    rw [eval_simList_mixed]
    simp only [List.map_cons, List.map_nil]
    norm_num
  have h2 : ("b", (0 : ℝ)) ∈ similarityList [1] [("a", [1]), ("b", [0])] none := by
    rw [eval_simList_mixed]
    simp
  have h3 : (similarityList [1] [("a", [1]), ("b", [0])] none).countP
      (fun x => decide ((0 : ℝ) < x.2)) < 2 := by
    rw [eval_simList_mixed]
    simp only [List.countP_cons, List.countP_nil]
    norm_num
  exact ⟨h1, h2, h3, C10_rank_only_selection.1 [1] [("a", [1]), ("b", [0])] 2
    none ("b", 0) h1 h2 h3⟩

theorem foldl_min_le_init (l : List ℝ) (a : ℝ) : l.foldl min a ≤ a := by
  induction l generalizing a with
  | nil => exact le_refl a
  | cons b l ih => exact le_trans (ih (min a b)) (min_le_left a b)

theorem foldl_min_le_mem {l : List ℝ} {x : ℝ} (hx : x ∈ l) :
    ∀ a, l.foldl min a ≤ x := by
  induction l with
  | nil => cases hx
  | cons b l ih =>
    intro a
    rcases List.mem_cons.1 hx with rfl | hx'
    · exact le_trans (foldl_min_le_init l (min a x)) (min_le_right a x)
    · exact ih hx' (min a b)

theorem npMin_le {l : List ℝ} {x : ℝ} (hx : x ∈ l) : npMin l ≤ x := by
  cases l with
  | nil => cases hx
  | cons a l =>
    rcases List.mem_cons.1 hx with rfl | hx'
    · exact foldl_min_le_init l x
    · exact foldl_min_le_mem hx' a

theorem init_le_foldl_max (l : List ℝ) (a : ℝ) : a ≤ l.foldl max a := by
  induction l generalizing a with
  | nil => exact le_refl a
  | cons b l ih => exact le_trans (le_max_left a b) (ih (max a b))

theorem mem_le_foldl_max {l : List ℝ} {x : ℝ} (hx : x ∈ l) :
    ∀ a, x ≤ l.foldl max a := by
  induction l with
  | nil => cases hx
  | cons b l ih =>
    intro a
    rcases List.mem_cons.1 hx with rfl | hx'
    · exact le_trans (le_max_right a x) (init_le_foldl_max l (max a x))
    · exact ih hx' (max a b)

theorem le_npMax {l : List ℝ} {x : ℝ} (hx : x ∈ l) : x ≤ npMax l := by
  cases l with
  | nil => cases hx
  | cons a l =>
    rcases List.mem_cons.1 hx with rfl | hx'
    · exact init_le_foldl_max l x
    · exact mem_le_foldl_max hx' a

/-- One normalized axis value stays in the unit interval: `v` lies between
the axis minimum and maximum, and a zero range was replaced by `1`. -/
theorem normalized_mem_unit {m M v : ℝ} (hlo : m ≤ v) (hhi : v ≤ M) :
    0 ≤ (v - m) / (if M ≠ m then M - m else 1) ∧
      (v - m) / (if M ≠ m then M - m else 1) ≤ 1 := by
  by_cases hMm : M = m
  · rw [if_neg (by simpa using hMm)]
    have hv : v = m := le_antisymm (hMm ▸ hhi) hlo
    rw [hv]
    norm_num
  · rw [if_pos hMm]
    have hlt : m < M := lt_of_le_of_ne (le_trans hlo hhi) (Ne.symm hMm)
    have hr : 0 < M - m := sub_pos.2 hlt
    constructor
    · exact div_nonneg (sub_nonneg.2 hlo) (le_of_lt hr)
    · rw [div_le_one hr]
      exact sub_le_sub_right hhi m

/-- C6: for every reducer and corpus, `compute_2d_projection` returns the
empty mapping when the corpus has fewer than 2 records (no error), and
otherwise every returned `x` and `y` coordinate lies in `[0, 1]`, the
min-max normalization being applied per axis with a range of `1.0`
substituted when all the values on an axis coincide. -/
theorem C6_projection_bounds (reducer : List (List ℝ) → List (ℝ × ℝ))
    (embeddings : List (String × List ℝ)) :
    (embeddings.length < 2 → compute_2d_projection reducer embeddings = []) ∧
    ∀ p ∈ compute_2d_projection reducer embeddings,
      0 ≤ p.2.1 ∧ p.2.1 ≤ 1 ∧ 0 ≤ p.2.2 ∧ p.2.2 ≤ 1 := by
  constructor
  · intro h
    simp only [compute_2d_projection, if_pos h]
  · intro p hp
    by_cases hlen : embeddings.length < 2
    · simp only [compute_2d_projection, if_pos hlen] at hp
      cases hp
    · simp only [compute_2d_projection, if_neg hlen] at hp
      have hzip := List.of_mem_zip hp
      obtain ⟨c, hc, hpc⟩ := List.mem_map.1 hzip.2
      have hx := normalized_mem_unit
        (npMin_le (List.mem_map_of_mem Prod.fst hc))
        (le_npMax (List.mem_map_of_mem Prod.fst hc))
      have hy := normalized_mem_unit
        (npMin_le (List.mem_map_of_mem Prod.snd hc))
        (le_npMax (List.mem_map_of_mem Prod.snd hc))
      rw [← hpc]
      exact ⟨hx.1, hx.2, hy.1, hy.2⟩

/-- C5 (counterexample): as stated the claim fails on very small corpora.
A one-record corpus with `n_clusters = 10` is adjusted to `max 2 (1 / 10)
= 2` clusters, which still exceeds the corpus size, so k-means raises
instead of producing an assignment. -/
theorem C5_counterexample :
    ([("a", [(1 : ℝ)])] : List (String × List ℝ)).length < 10 ∧
    adjusted_n_clusters 10 1 = 2 ∧
    compute_clusters kmeansModel 10 [("a", [1])] = none := by
  refine ⟨by norm_num, rfl, ?_⟩
  have hX : (sklearn_normalize (([("a", [(1 : ℝ)])] :
      List (String × List ℝ)).map Prod.snd)).length = 1 := by
    simp [sklearn_normalize]
  have hk : kmeansModel (adjusted_n_clusters 10
      ([("a", [(1 : ℝ)])] : List (String × List ℝ)).length)
      (sklearn_normalize (([("a", [(1 : ℝ)])] :
        List (String × List ℝ)).map Prod.snd)) = none := by
    rw [kmeansModel, if_neg]
    rw [hX]
    decide
  simp only [compute_clusters, hk]

/-- C5 (amended): for every corpus of at least 2 records that is smaller
than the requested `n_clusters`, the cluster count is deterministically
reduced to `max 2 (corpus_size / 10)`, the run succeeds (for any k-means
implementation satisfying the sklearn contract), the adjustment is reported,
and every produced cluster index lies in `[0, adjustedN)`. -/
theorem C5_cluster_adjustment (kmeans : ℕ → List (List ℝ) → Option (List ℕ))
    (n_clusters : ℕ) (corpus : List (String × List ℝ))
    (hcontract : KMeansContract kmeans)
    (hsmall : corpus.length < n_clusters) (hge2 : 2 ≤ corpus.length) :
    adjusted_n_clusters n_clusters corpus.length =
      max 2 (corpus.length / 10) ∧
    (∃ a, compute_clusters kmeans n_clusters corpus =
      some (max 2 (corpus.length / 10), true, a)) ∧
    (∀ r, compute_clusters kmeans n_clusters corpus = some r →
      ∀ p ∈ r.2.2, p.2 < max 2 (corpus.length / 10)) := by
  have hadj : adjusted_n_clusters n_clusters corpus.length =
      max 2 (corpus.length / 10) := if_pos hsmall
  have hXlen : (sklearn_normalize (corpus.map Prod.snd)).length =
      corpus.length := by
    simp [sklearn_normalize]
  have hle : max 2 (corpus.length / 10) ≤
      (sklearn_normalize (corpus.map Prod.snd)).length := by
    rw [hXlen]
    exact max_le hge2 (Nat.div_le_self _ _)
  obtain ⟨labels, hlab, hlen, hrange⟩ :=
    (hcontract (max 2 (corpus.length / 10))
      (sklearn_normalize (corpus.map Prod.snd))).2
      (le_trans (by norm_num) (le_max_left 2 _)) hle
  have hk : kmeans (adjusted_n_clusters n_clusters corpus.length)
      (sklearn_normalize (corpus.map Prod.snd)) = some labels := by
    rw [hadj]; exact hlab
  refine ⟨hadj, ?_, ?_⟩
  · refine ⟨(corpus.map Prod.fst).zip labels, ?_⟩
    simp only [compute_clusters, hadj, hlab]
    rw [decide_eq_true hsmall]
  · intro r hr p hp
    simp only [compute_clusters, hk] at hr
    obtain rfl := Option.some.inj hr
    have := (List.of_mem_zip hp).2
    simp only at this
    exact hrange p.2 this

/-- C5 (witness): the amended theorem applied to the 2-record corpus
`[("a",[1]), ("b",[1])]` with `n_clusters = 5` and the modelled k-means. -/
theorem C5_cluster_adjustment_witness :
    KMeansContract kmeansModel ∧
    ([("a", [(1 : ℝ)]), ("b", [1])] : List (String × List ℝ)).length < 5 ∧
    2 ≤ ([("a", [(1 : ℝ)]), ("b", [1])] : List (String × List ℝ)).length ∧
    (∃ a, compute_clusters kmeansModel 5 [("a", [1]), ("b", [1])] =
      some (max 2 (([("a", [(1 : ℝ)]), ("b", [1])] :
        List (String × List ℝ)).length / 10), true, a)) := by
  have hc : KMeansContract kmeansModel := by
    intro n X
    constructor
    · intro h
      rw [kmeansModel, if_neg]
      omega
    · intro h1 h2
      refine ⟨X.map (fun _ => 0), ?_, by simp, ?_⟩
      · rw [kmeansModel, if_pos ⟨h1, h2⟩]
      · intro l hl
        obtain ⟨_, _, rfl⟩ := List.mem_map.1 hl
        omega
  exact ⟨hc, by norm_num, by norm_num,
    (C5_cluster_adjustment kmeansModel 5 [("a", [1]), ("b", [1])] hc
      (by norm_num) (by norm_num)).2.1⟩

theorem insertAscZ_perm (a : ℤ) (l : List ℤ) :
    (insertAscZ a l).Perm (a :: l) := by
  induction l with
  | nil => exact List.Perm.refl _
  | cons b l ih =>
    simp only [insertAscZ]
    split
    · exact (ih.cons b).trans (List.Perm.swap a b l)
    · exact List.Perm.refl _

theorem sortAscZ_perm (l : List ℤ) : (sortAscZ l).Perm l := by
  induction l with
  | nil => exact List.Perm.refl _
  | cons a l ih => exact (insertAscZ_perm a (sortAscZ l)).trans (ih.cons a)

theorem sum_counts_sorted_dedup (l : List ℤ) :
    ((sortAscZ l.dedup).map (fun c => l.count c)).sum = l.length := by
  rw [((sortAscZ_perm l.dedup).map (fun c => l.count c)).sum_eq]
  exact List.sum_map_count_dedup_eq_length l

/-- C9: `get_analytics_stats` on the empty store returns all-zero totals and
averages without failing; in general the returned `avg_quotes_per_person` is
`total_quotes / total_people` (`0` when there are no people) and the
returned `avg_cluster_size` is the number of cluster-assigned quotes divided
by `total_clusters` (`0` when there are no clusters). -/
theorem C9_stats_shape (st : DBState) :
    (get_analytics_stats stEmpty).total_quotes = 0 ∧
    (get_analytics_stats stEmpty).total_people = 0 ∧
    (get_analytics_stats stEmpty).avg_quotes_per_person = 0 ∧
    (get_analytics_stats stEmpty).total_clusters = 0 ∧
    (get_analytics_stats stEmpty).avg_cluster_size = 0 ∧
    (get_analytics_stats st).avg_quotes_per_person =
      (if 0 < (get_analytics_stats st).total_people then
        ((get_analytics_stats st).total_quotes : ℝ) /
          ((get_analytics_stats st).total_people : ℝ) else 0) ∧
    (get_analytics_stats st).avg_cluster_size =
      (if 0 < (get_analytics_stats st).total_clusters then
        ((assignedClusterIds st).length : ℝ) /
          ((get_analytics_stats st).total_clusters : ℝ) else 0) := by
  refine ⟨rfl, rfl, rfl, rfl, rfl, rfl, ?_⟩
  simp only [get_analytics_stats, List.map_map]
  rw [show ((fun c : ℤ × ℕ × ℝ => c.2.1) ∘ fun c : ℤ =>
      (c, (assignedClusterIds st).count c, avgSimilarityInCluster st c)) =
    fun c : ℤ => (assignedClusterIds st).count c from rfl]
  rw [sum_counts_sorted_dedup]

theorem eval_proj_two :
    compute_2d_projection zeroReducer [("a", [1]), ("b", [1])] =
      [("a", (0, 0)), ("b", (0, 0))] := by
  rw [compute_2d_projection, if_neg (by norm_num)]
  simp only [zeroReducer, List.map_cons, List.map_nil, npMin, npMax,
    List.foldl]
  norm_num [List.zip]

/-- C6 (witness): the projection theorem applied to the empty corpus (empty
mapping) and to a concrete 2-record corpus with the degenerate reducer, one
of whose returned points is checked to lie in the unit square. -/
theorem C6_projection_bounds_witness :
    (([] : List (String × List ℝ)).length < 2 ∧
      compute_2d_projection zeroReducer [] = []) ∧
    (("a", ((0 : ℝ), (0 : ℝ))) ∈
        compute_2d_projection zeroReducer [("a", [1]), ("b", [1])] ∧
      (0 : ℝ) ≤ 0 ∧ (0 : ℝ) ≤ 1 ∧ (0 : ℝ) ≤ 0 ∧ (0 : ℝ) ≤ 1) := by
  have hmem : ("a", ((0 : ℝ), (0 : ℝ))) ∈
      compute_2d_projection zeroReducer [("a", [1]), ("b", [1])] := by
    rw [eval_proj_two]
    simp
  have hb := (C6_projection_bounds zeroReducer [("a", [1]), ("b", [1])]).2
    ("a", ((0 : ℝ), (0 : ℝ))) hmem
  exact ⟨⟨by norm_num, (C6_projection_bounds zeroReducer []).1 (by norm_num)⟩,
    hmem, hb⟩

end QuoteViz
